import Mathlib

/- Verification of the biohack-debunker claim-verification pipeline.

   Shallow embedding conventions: Python strings are modelled as `List Char`,
   Python floats as `ℚ` (the analyzed code only compares, `min`/`max`es and
   copies them, so exact rational arithmetic is faithful), JSON-shaped LLM
   output as explicit record types with `Option` for missing/null fields, and
   network interaction as oracle functions supplied to the embedded control
   flow.  Function and field names follow the Python source
   (`services/analysis-service/src/analysis_service/chains/claim_analyzer.py`,
   `.../chains/claim_extractor.py`, `.../llm_client.py`,
   `services/research-service/src/research_service/pubmed_client.py`). -/

/-! ## Python string primitives -/

/-- Whitespace characters recognized by Python `str.strip()` and `\s` (ASCII). -/
def pyIsSpace (c : Char) : Bool :=
  c = ' ' || c = '\t' || c = '\n' || c = '\r' || c = '\x0b' || c = '\x0c'

/-- Python `str.strip()`: drop leading and trailing whitespace. -/
def pyStrip (l : List Char) : List Char :=
  ((l.dropWhile pyIsSpace).reverse.dropWhile pyIsSpace).reverse

/-- Python `str.lower()` (ASCII model). -/
def pyLower (l : List Char) : List Char := l.map Char.toLower

/-- Python builtin `min` on two floats (returns the first argument on ties). -/
def pyMin (a b : ℚ) : ℚ := if a ≤ b then a else b

/-- Python builtin `max` on two floats (returns the second argument on ties). -/
def pyMax (a b : ℚ) : ℚ := if a ≤ b then b else a

/-- Characters matched by the class `[\s-]` in `_normalize_verdict`. -/
def isVerdictSep (c : Char) : Bool := pyIsSpace c || c = '-'

/-- Replace every maximal run of `[\s-]` characters by a single `'_'`,
    mirroring `re.sub(r"[\s-]+", "_", raw)`; the Boolean records whether the
    previous character belonged to a run. -/
def subSepAux : Bool → List Char → List Char
  | _, [] => []
  | prevSep, c :: cs =>
    if isVerdictSep c then
      if prevSep then subSepAux true cs else '_' :: subSepAux true cs
    else c :: subSepAux false cs

/-- The full substitution `re.sub(r"[\s-]+", "_", raw)`. -/
def subSepRuns (l : List Char) : List Char := subSepAux false l

/-! ## Verdict taxonomy and normalization (`claim_analyzer.py`) -/

/-- Canonical verdict `"supported"`. -/
def supportedV : List Char := "supported".toList

/-- Canonical verdict `"partially_supported"`. -/
def partiallySupportedV : List Char := "partially_supported".toList

/-- Canonical verdict `"unsupported_by_evidence"`. -/
def unsupportedV : List Char := "unsupported_by_evidence".toList

/-- Canonical verdict `"no_evidence_found"`. -/
def noEvidenceV : List Char := "no_evidence_found".toList

/-- The `aliases` dict of `_normalize_verdict`, as an association list looked
    up with `List.lookup` (Python dict `.get`). -/
def verdictAliases : List (List Char × List Char) :=
  [("supported".toList, supportedV),
   ("partially_supported".toList, partiallySupportedV),
   ("partial_support".toList, partiallySupportedV),
   ("partly_supported".toList, partiallySupportedV),
   ("unsupported".toList, unsupportedV),
   ("not_supported".toList, unsupportedV),
   ("insufficient_evidence".toList, unsupportedV),
   ("unsupported_by_evidence".toList, unsupportedV),
   ("no_evidence".toList, noEvidenceV),
   ("no_evidence_found".toList, noEvidenceV),
   ("no_supporting_evidence".toList, noEvidenceV)]

/-- Embeds `_normalize_verdict` (claim_analyzer.py lines 17-38).  `value` is
    the model-emitted verdict string, `none` when the field is missing, null
    or otherwise falsy (then `str(value or "")` yields `""`). -/
def _normalize_verdict (value : Option (List Char)) (has_sources : Bool) : List Char :=
  let raw := pyLower (pyStrip (value.getD []))
  let normalized := subSepRuns raw
  match verdictAliases.lookup normalized with
  | some mapped =>
    if mapped = unsupportedV ∧ has_sources = false then noEvidenceV else mapped
  | none => if has_sources then unsupportedV else noEvidenceV

/-! ## Data model (`schemas.py` fields read by the analyzer) -/

/-- Embeds the fields of `EvidenceSource` that the analyzer chain reads; the
    optional bibliometric fields it never touches are omitted. -/
structure EvidenceSource where
  title : List Char
  url : List Char
  source_type : List Char
  publication_type : Option (List (List Char))
  relevance_score : ℚ
  snippet : Option (List Char)
deriving Repr, DecidableEq

/-- Embeds `ClaimAnalysis` with the fields `claim_analyzer.py` constructs and
    reads (spec §3: verdict, confidence, explanation, nuance, evidence_level,
    study_type). -/
structure ClaimAnalysis where
  verdict : List Char
  confidence : ℚ
  explanation : List Char
  nuance : Option (List Char)
  evidence_level : Option (List Char)
  study_type : Option (List Char)
deriving Repr, DecidableEq

/-! ## Evidence classification (`claim_analyzer.py` lines 111-193) -/

/-- Embeds `_has_human_evidence` (lines 188-193): some source carries a
    publication-type tag that strips/lowers to `"humans"`. -/
def _has_human_evidence (sources : List EvidenceSource) : Bool :=
  sources.any fun source =>
    (source.publication_type.getD []).any fun tag =>
      pyLower (pyStrip tag) = "humans".toList

/-- Embeds `_classify_source` (lines 132-161): join the lowered tags with
    `" | "` and scan for study-type keywords. -/
def _classify_source (source : EvidenceSource) : List Char :=
  let ptags := match source.publication_type with
    | some l => if l = [] then [] else (l.filter (fun t => t ≠ [])).map pyLower
    | none => []
  let tags := if source.source_type = [] then ptags
              else ptags ++ [pyLower source.source_type]
  let joined := List.intercalate " | ".toList tags
  if ("meta-analysis".toList <:+: joined) ∨ ("meta analysis".toList <:+: joined) then
    "meta_analysis".toList
  else if "systematic review".toList <:+: joined then "systematic_review".toList
  else if ("randomized controlled trial".toList <:+: joined) ∨
      ("randomised controlled trial".toList <:+: joined) then "rct".toList
  else if ("randomized".toList <:+: joined) ∨ ("randomised".toList <:+: joined) then
    "rct".toList
  else if "clinical trial".toList <:+: joined then "clinical_trial".toList
  else if ("cohort".toList <:+: joined) ∨ ("case-control".toList <:+: joined) ∨
      ("case control".toList <:+: joined) then "observational".toList
  else if ("cross-sectional".toList <:+: joined) ∨ ("observational".toList <:+: joined) then
    "observational".toList
  else if ("case reports".toList <:+: joined) ∨ ("case report".toList <:+: joined) then
    "case_report".toList
  else if ("in vitro".toList <:+: joined) ∨ ("cell line".toList <:+: joined) ∨
      ("cell culture".toList <:+: joined) then "in_vitro".toList
  else if ("animals".toList <:+: joined) ∨ ("animal".toList <:+: joined) ∨
      ("rodent".toList <:+: joined) then "animal".toList
  else if ("mice".toList <:+: joined) ∨ ("mouse".toList <:+: joined) ∨
      ("rat".toList <:+: joined) then "animal".toList
  else "unknown".toList

/-- Embeds `_study_type_rank` (lines 164-175). -/
def _study_type_rank (study_type : List Char) : Nat :=
  if study_type = "meta_analysis".toList then 6
  else if study_type = "systematic_review".toList then 5
  else if study_type = "rct".toList then 4
  else if study_type = "clinical_trial".toList then 3
  else if study_type = "observational".toList then 2
  else if study_type = "case_report".toList then 1
  else if study_type = "animal".toList then 1
  else if study_type = "in_vitro".toList then 1
  else 0

/-- Embeds `_evidence_level_for_type` (lines 178-185). -/
def _evidence_level_for_type (study_type : List Char) : List Char :=
  if study_type = "meta_analysis".toList ∨ study_type = "systematic_review".toList ∨
      study_type = "rct".toList ∨ study_type = "clinical_trial".toList then "high".toList
  else if study_type = "observational".toList then "moderate".toList
  else if study_type = "case_report".toList ∨ study_type = "animal".toList ∨
      study_type = "in_vitro".toList then "low".toList
  else "very_low".toList

/-- Embeds `_infer_evidence_classification` (lines 118-129): rank-maximal
    study type over the sources, ties broken toward the earlier source. -/
def _infer_evidence_classification (sources : List EvidenceSource) :
    List Char × List Char :=
  let best := sources.foldl
    (fun (acc : List Char × Nat) source =>
      let st := _classify_source source
      let rank := _study_type_rank st
      if rank > acc.2 then (st, rank) else acc)
    ("unknown".toList, 0)
  (_evidence_level_for_type best.1, best.1)

/-- Embeds `_normalize_label` (lines 111-115). -/
def _normalize_label (value : Option (List Char)) : Option (List Char) :=
  match value with
  | none => none
  | some s =>
    let text := pyLower (pyStrip s)
    if text = [] then none else some text

/-! ## Deterministic verdict policy (`claim_analyzer.py` lines 196-235) -/

/-- The nuance sentence appended by the non-human-evidence rule. -/
def nonHumanNote : List Char :=
  "Evidence is limited to non-human or in vitro studies; human efficacy is unproven.".toList

/-- Python `x or d` for an optional string (both `None` and `""` are falsy). -/
def orDefaultStr (x : Option (List Char)) (d : List Char) : List Char :=
  match x with
  | none => d
  | some s => if s = [] then d else s

/-- Embeds `_apply_evidence_policy` (lines 196-235).  The sequential
    reassignments of the Python body become a chain of `let`s: rule 1 is the
    no-evidence override (cap 0.2 = 1/5), rule 2 the evidence-present
    promotion, rule 3 the weak-evidence cap (0.55 = 11/20), rule 4 the
    non-human cap (0.4 = 2/5) with nuance deduplication, followed by the
    final clamp of confidence into [0, 1]. -/
def _apply_evidence_policy (analysis : ClaimAnalysis) (sources : List EvidenceSource) :
    ClaimAnalysis :=
  let verdict0 := analysis.verdict
  let confidence0 := analysis.confidence
  let nuance0 := analysis.nuance
  let evidence_level := orDefaultStr analysis.evidence_level "very_low".toList
  let study_type := orDefaultStr analysis.study_type "unknown".toList
  let verdict1 := if sources = [] ∧ verdict0 ≠ noEvidenceV then noEvidenceV else verdict0
  let confidence1 := if sources = [] ∧ verdict0 ≠ noEvidenceV then
      pyMin confidence0 (mkRat 1 5) else confidence0
  let verdict2 := if sources ≠ [] ∧ verdict1 = noEvidenceV then unsupportedV else verdict1
  let lowLevel := evidence_level = "low".toList ∨ evidence_level = "very_low".toList
  let verdict3 := if lowLevel ∧ verdict2 = supportedV then partiallySupportedV else verdict2
  let confidence2 := if lowLevel then pyMin confidence1 (mkRat 11 20) else confidence1
  let nonHuman := (study_type = "animal".toList ∨ study_type = "in_vitro".toList) ∧
    _has_human_evidence sources = false
  let verdict4 := if nonHuman ∧ (verdict3 = supportedV ∨ verdict3 = partiallySupportedV)
      then unsupportedV else verdict3
  let confidence3 := if nonHuman then pyMin confidence2 (mkRat 2 5) else confidence2
  let nuance1 := if nonHuman then
      match nuance0 with
      | none => some nonHumanNote
      | some s =>
        if s = [] then some nonHumanNote
        else if nonHumanNote <:+: s then some s
        else some (pyStrip (s ++ ' ' :: nonHumanNote))
    else nuance0
  { verdict := verdict4
    confidence := pyMax 0 (pyMin confidence3 1)
    explanation := analysis.explanation
    nuance := nuance1
    evidence_level := some evidence_level
    study_type := some study_type }

/-! ## Coercion of raw model output (`claim_analyzer.py` lines 87-108) -/

/-- The JSON object the model returns for one claim, reduced to the fields
    `_coerce_analysis` reads; `none` models a missing, null or otherwise
    falsy field. -/
structure RawAnalysis where
  verdict : Option (List Char)
  confidence : Option ℚ
  explanation : Option (List Char)
  nuance : Option (List Char)
  evidence_level : Option (List Char)
  study_type : Option (List Char)
deriving Repr, DecidableEq

/-- Confidence default `float(data.get("confidence") or 0.5)` (line 91):
    missing, null and exactly-0 confidences all fall back to 0.5. -/
def coerceConfidence (x : Option ℚ) : ℚ :=
  match x with
  | none => mkRat 1 2
  | some v => if v = 0 then mkRat 1 2 else v

/-- Embeds `_coerce_analysis` (lines 87-107) up to, but not including, its
    final `_apply_evidence_policy` call: verdict normalization, confidence
    defaulting and clamping, explanation/nuance cleanup and evidence-
    classification inference. -/
def coercePrePolicy (data : RawAnalysis) (sources : List EvidenceSource) : ClaimAnalysis :=
  let verdict := _normalize_verdict data.verdict (sources ≠ [])
  let confidence := coerceConfidence data.confidence
  let explanation := pyStrip (orDefaultStr data.explanation
    "Insufficient evidence available.".toList)
  let nuance := match data.nuance with
    | none => none
    | some s => if s = [] then none else some (pyStrip s)
  let evidence_level0 := _normalize_label data.evidence_level
  let study_type0 := _normalize_label data.study_type
  let inferred := _infer_evidence_classification sources
  let evidence_level := if evidence_level0 = none ∨ study_type0 = none then
      some (evidence_level0.getD inferred.1) else evidence_level0
  let study_type := if evidence_level0 = none ∨ study_type0 = none then
      some (study_type0.getD inferred.2) else study_type0
  { verdict := verdict
    confidence := pyMax 0 (pyMin confidence 1)
    explanation := explanation
    nuance := nuance
    evidence_level := evidence_level
    study_type := study_type }

/-- Embeds `_coerce_analysis` (lines 87-108) in full: the verdict policy pass
    applied to the coerced raw analysis. -/
def _coerce_analysis (data : RawAnalysis) (sources : List EvidenceSource) : ClaimAnalysis :=
  _apply_evidence_policy (coercePrePolicy data sources) sources

/-! ## Helper lemmas -/

/-- `pyMin` agrees with the lattice `min` on `ℚ`. -/
theorem pyMin_eq_min (a b : ℚ) : pyMin a b = min a b := by
  unfold pyMin; rw [min_def]

/-- `pyMax` agrees with the lattice `max` on `ℚ`. -/
theorem pyMax_eq_max (a b : ℚ) : pyMax a b = max a b := by
  unfold pyMax; rw [max_def]

/-- The four canonical verdict strings are pairwise distinct (all ordered
    pairs, so `simp` can rewrite either orientation to `False`). -/
theorem canonical_verdicts_distinct :
    supportedV ≠ partiallySupportedV ∧ supportedV ≠ unsupportedV ∧
    supportedV ≠ noEvidenceV ∧ partiallySupportedV ≠ unsupportedV ∧
    partiallySupportedV ≠ noEvidenceV ∧ unsupportedV ≠ noEvidenceV ∧
    partiallySupportedV ≠ supportedV ∧ unsupportedV ≠ supportedV ∧
    noEvidenceV ≠ supportedV ∧ unsupportedV ≠ partiallySupportedV ∧
    noEvidenceV ≠ partiallySupportedV ∧ noEvidenceV ≠ unsupportedV := by decide

/-! ## C6: evidence present forbids a final `no_evidence_found` -/

/-- C6: for every raw analysis and every non-empty evidence list, a verdict of
    `no_evidence_found` is promoted to `unsupported_by_evidence` by the policy
    pass, and the final verdict of a claim analyzed with at least one evidence
    source is never `no_evidence_found` — both for `_apply_evidence_policy`
    on an arbitrary `ClaimAnalysis` and for the full `_coerce_analysis`. -/
theorem c6_evidence_present_override (a : ClaimAnalysis) (data : RawAnalysis)
    (sources : List EvidenceSource) (hs : sources ≠ []) :
    (_apply_evidence_policy a sources).verdict ≠ noEvidenceV ∧
    (a.verdict = noEvidenceV →
      (_apply_evidence_policy a sources).verdict = unsupportedV) ∧
    (_coerce_analysis data sources).verdict ≠ noEvidenceV := by
  have h1 : ∀ b : ClaimAnalysis, (_apply_evidence_policy b sources).verdict ≠ noEvidenceV ∧
      (b.verdict = noEvidenceV → (_apply_evidence_policy b sources).verdict = unsupportedV) := by
    intro b
    simp only [_apply_evidence_policy, hs]
    split_ifs <;> simp_all [canonical_verdicts_distinct]
  refine ⟨(h1 a).1, (h1 a).2, ?_⟩
  exact (h1 (coercePrePolicy data sources)).1

/-- C6 witness: a concrete no-evidence verdict with one source is promoted. -/
theorem c6_evidence_present_override_witness :
    (_apply_evidence_policy
        ⟨noEvidenceV, mkRat 9 10, "e".toList, none, some "high".toList, some "rct".toList⟩
        [⟨"t".toList, "u".toList, "pubmed".toList, none, 1, none⟩]).verdict =
      unsupportedV :=
  (c6_evidence_present_override
    ⟨noEvidenceV, mkRat 9 10, "e".toList, none, some "high".toList, some "rct".toList⟩
    ⟨none, none, none, none, none, none⟩
    [⟨"t".toList, "u".toList, "pubmed".toList, none, 1, none⟩]
    (by decide)).2.1 (by decide)

/-! ## C10: confidence defaulting in `_coerce_analysis` -/

/-- C10: when the model output's confidence field is missing, null, or exactly
    0, the pre-policy confidence produced by `_coerce_analysis` (before its
    `_apply_evidence_policy` call) is 0.5. -/
theorem c10_confidence_default (data : RawAnalysis) (sources : List EvidenceSource)
    (h : data.confidence = none ∨ data.confidence = some 0) :
    (coercePrePolicy data sources).confidence = mkRat 1 2 := by
  have hc : coerceConfidence data.confidence = mkRat 1 2 := by
    rcases h with h | h <;> simp [coerceConfidence, h]
  simp only [coercePrePolicy]
  rw [hc]
  decide

/-- C10 witness: a model-reported confidence of exactly 0 becomes 0.5. -/
theorem c10_confidence_default_witness :
    (coercePrePolicy ⟨none, some 0, none, none, none, none⟩ []).confidence = mkRat 1 2 :=
  c10_confidence_default ⟨none, some 0, none, none, none, none⟩ [] (Or.inr rfl)

/-! ## C9: `LLMRoute.enabled` -/

/-- Python truthiness `bool(x)` of an optional string. -/
def pyTruthy (x : Option (List Char)) : Bool :=
  match x with
  | none => false
  | some s => !s.isEmpty

/-- Embeds `LLMRoute` (llm_client.py lines 326-335); `enabled` requires the
    provider to be literally `"openai"` besides truthiness of the other
    fields. -/
structure LLMRoute where
  provider : List Char
  model : Option (List Char)
  api_key : Option (List Char)
  base_url : Option (List Char)
deriving Repr, DecidableEq

/-- Embeds the `LLMRoute.enabled` property (llm_client.py lines 333-335). -/
def LLMRoute.enabled (r : LLMRoute) : Bool :=
  decide (r.provider = "openai".toList) && pyTruthy r.model && pyTruthy r.api_key &&
    pyTruthy r.base_url

/-- Modelled from the claim's words ("enabled iff all of its fields are
    present"): every field non-null and non-empty. -/
def allFieldsPresent (r : LLMRoute) : Bool :=
  !r.provider.isEmpty && pyTruthy r.model && pyTruthy r.api_key && pyTruthy r.base_url

/-- C9 counterexample: a route whose fields are all present but whose
    provider is not `"openai"` is NOT enabled, refuting "enabled iff all
    fields present". -/
theorem c9_counterexample :
    allFieldsPresent
        ⟨"anthropic".toList, some "claude".toList, some "k".toList, some "u".toList⟩ = true ∧
    LLMRoute.enabled
        ⟨"anthropic".toList, some "claude".toList, some "k".toList, some "u".toList⟩ = false := by
  decide

/-- C9 (amended): an `LLMRoute` is enabled iff its provider is exactly
    `"openai"` and its `model`, `api_key` and `base_url` are all present
    (non-null and non-empty). -/
theorem c9_enabled_iff (r : LLMRoute) :
    r.enabled = true ↔
      (r.provider = "openai".toList ∧ pyTruthy r.model = true ∧
        pyTruthy r.api_key = true ∧ pyTruthy r.base_url = true) := by
  simp [LLMRoute.enabled, Bool.and_eq_true, decide_eq_true_iff, and_assoc]

/-- C9 witness: a fully-configured openai route is enabled. -/
theorem c9_enabled_iff_witness :
    LLMRoute.enabled ⟨"openai".toList, some "gpt-4o".toList, some "k".toList,
      some "https://api".toList⟩ = true :=
  (c9_enabled_iff _).mpr ⟨rfl, by decide, by decide, by decide⟩

/-! ## C1: empty evidence forces `no_evidence_found` -/

set_option maxHeartbeats 1000000 in
/-- With an empty evidence list the policy pass always outputs verdict
    `no_evidence_found`, and caps confidence at 0.2 whenever the incoming
    verdict was not already `no_evidence_found`. -/
theorem policy_empty (b : ClaimAnalysis) :
    (_apply_evidence_policy b []).verdict = noEvidenceV ∧
    (b.verdict ≠ noEvidenceV →
      (_apply_evidence_policy b []).confidence ≤ mkRat 1 5) := by
  constructor
  · simp only [_apply_evidence_policy]
    split_ifs <;> simp_all [canonical_verdicts_distinct]
  · intro h
    simp only [_apply_evidence_policy, pyMin_eq_min, pyMax_eq_max]
    split_ifs <;>
      first
        | (refine max_le (by decide) (le_trans (min_le_left _ _) ?_)
           first
             | exact min_le_right _ _
             | exact le_trans (min_le_left _ _) (min_le_right _ _)
             | exact le_trans (min_le_left _ _)
                 (le_trans (min_le_left _ _) (min_le_right _ _)))
        | simp_all

/-- C1 counterexample: with empty evidence but a model that itself emitted
    `"no_evidence_found"` (confidence 0.9), the 0.2 cap never fires: the final
    confidence is 0.55 (the weak-evidence cap), refuting "confidence ≤ 0.2
    regardless of what the model emitted". -/
theorem c1_counterexample :
    (_coerce_analysis ⟨some "no_evidence_found".toList, some (mkRat 9 10), none, none, none,
        none⟩ []).verdict = noEvidenceV ∧
    (_coerce_analysis ⟨some "no_evidence_found".toList, some (mkRat 9 10), none, none, none,
        none⟩ []).confidence = mkRat 11 20 ∧
    ¬ ((_coerce_analysis ⟨some "no_evidence_found".toList, some (mkRat 9 10), none, none, none,
        none⟩ []).confidence ≤ mkRat 1 5) := by
  refine ⟨by decide, by decide, by decide⟩

/-- C1 (amended): for every raw model analysis and an empty evidence list,
    the final verdict is `no_evidence_found`; the confidence is capped at 0.2
    whenever the normalized model verdict was not already
    `no_evidence_found` (only then does the no-evidence override fire). -/
theorem c1_no_evidence_override (data : RawAnalysis) :
    (_coerce_analysis data []).verdict = noEvidenceV ∧
    (_normalize_verdict data.verdict false ≠ noEvidenceV →
      (_coerce_analysis data []).confidence ≤ mkRat 1 5) := by
  have hv : (coercePrePolicy data []).verdict = _normalize_verdict data.verdict false := rfl
  exact ⟨(policy_empty (coercePrePolicy data [])).1,
    fun h => (policy_empty (coercePrePolicy data [])).2 (by rw [hv]; exact h)⟩

/-- C1 witness: a model verdict of `"supported"` with confidence 0.9 and no
    evidence is overridden to `no_evidence_found` with confidence ≤ 0.2. -/
theorem c1_no_evidence_override_witness :
    (_coerce_analysis ⟨some "supported".toList, some (mkRat 9 10), none, none, none, none⟩
        []).verdict = noEvidenceV ∧
    (_coerce_analysis ⟨some "supported".toList, some (mkRat 9 10), none, none, none, none⟩
        []).confidence ≤ mkRat 1 5 :=
  ⟨(c1_no_evidence_override
      ⟨some "supported".toList, some (mkRat 9 10), none, none, none, none⟩).1,
   (c1_no_evidence_override
      ⟨some "supported".toList, some (mkRat 9 10), none, none, none, none⟩).2 (by decide)⟩

/-! ## String lemmas for the nuance-deduplication rules -/

/-- Decided facts about the non-human nuance sentence: non-empty, starts with
    a non-space character, ends with a period. -/
theorem nonHumanNote_facts :
    nonHumanNote ≠ [] ∧ nonHumanNote.dropWhile pyIsSpace = nonHumanNote ∧
    nonHumanNote.getLast? = some '.' ∧ pyIsSpace '.' = false := by decide

/-- `dropWhile` of a cons whose head fails the predicate is the identity. -/
theorem dropWhile_cons_neg {p : Char → Bool} {c : Char} (h : p c = false)
    (l : List Char) : (c :: l).dropWhile p = c :: l := by
  simp [List.dropWhile_cons, h]

/-- A suffix whose head is not whitespace survives a leading `dropWhile`. -/
theorem suffix_dropWhile_of_head (s l : List Char) (hne : s ≠ [])
    (hh : ∀ c, s.head? = some c → pyIsSpace c = false) (h : s <:+ l) :
    s <:+ l.dropWhile pyIsSpace := by
  induction l with
  | nil =>
    rw [List.suffix_nil] at h
    exact absurd h hne
  | cons d t ih =>
    by_cases hd : pyIsSpace d
    · rw [List.dropWhile_cons_of_pos hd]
      rcases List.suffix_cons_iff.mp h with heq | hsuf
      · cases s with
        | nil => exact absurd rfl hne
        | cons c cs =>
          have hc : c = d := by injection heq
          have := hh c rfl
          rw [hc, hd] at this
          cases this
      · exact ih hsuf
    · rw [List.dropWhile_cons_of_neg (by simp [hd])]
      exact h

/-- Trailing strip is the identity on a list whose last element is not
    whitespace. -/
theorem rstrip_eq_self (l : List Char) (c : Char) (hc : pyIsSpace c = false)
    (h : l.getLast? = some c) : (l.reverse.dropWhile pyIsSpace).reverse = l := by
  have hrev : l.reverse.head? = some c := by rw [List.head?_reverse]; exact h
  cases hl : l.reverse with
  | nil => rw [hl] at hrev; cases hrev
  | cons d t =>
    rw [hl] at hrev
    have hd : d = c := by injection hrev
    subst hd
    rw [dropWhile_cons_neg hc, ← hl, List.reverse_reverse]

/-- Stripping a list that ends in the non-human note reduces to a leading
    `dropWhile`, and the note is still a suffix of the result. -/
theorem note_suffix_pyStrip (l : List Char) (h : nonHumanNote <:+ l) :
    nonHumanNote <:+ pyStrip l ∧ pyStrip l = l.dropWhile pyIsSpace := by
  obtain ⟨hne, _, hlast, hdot⟩ := nonHumanNote_facts
  have h1 : nonHumanNote <:+ l.dropWhile pyIsSpace := by
    refine suffix_dropWhile_of_head _ _ hne ?_ h
    intro c hc
    have hh : nonHumanNote.head? = some 'E' := by decide
    rw [hh] at hc
    have hce : 'E' = c := by injection hc
    rw [← hce]
    decide
  obtain ⟨z, hz⟩ := id h1
  have hlast2 : (l.dropWhile pyIsSpace).getLast? = some '.' := by
    rw [← hz, List.getLast?_append_of_ne_nil z hne, hlast]
  have hr := rstrip_eq_self (l.dropWhile pyIsSpace) '.' hdot hlast2
  unfold pyStrip
  rw [hr]
  exact ⟨h1, rfl⟩

/-! ## Policy characterization helpers -/

/-- The weak-evidence condition (rule 3 of the policy) as a predicate of the
    input analysis. -/
def lowLevelP (b : ClaimAnalysis) : Prop :=
  orDefaultStr b.evidence_level "very_low".toList = "low".toList ∨
  orDefaultStr b.evidence_level "very_low".toList = "very_low".toList

/-- The non-human condition (rule 4 of the policy). -/
def nonHumanP (b : ClaimAnalysis) (sources : List EvidenceSource) : Prop :=
  (orDefaultStr b.study_type "unknown".toList = "animal".toList ∨
   orDefaultStr b.study_type "unknown".toList = "in_vitro".toList) ∧
  _has_human_evidence sources = false

/-- The policy never touches the explanation. -/
theorem policy_explanation (b : ClaimAnalysis) (s : List EvidenceSource) :
    (_apply_evidence_policy b s).explanation = b.explanation := rfl

/-- The policy materializes the defaulted evidence level. -/
theorem policy_evidence_level (b : ClaimAnalysis) (s : List EvidenceSource) :
    (_apply_evidence_policy b s).evidence_level =
      some (orDefaultStr b.evidence_level "very_low".toList) := rfl

/-- The policy materializes the defaulted study type. -/
theorem policy_study_type (b : ClaimAnalysis) (s : List EvidenceSource) :
    (_apply_evidence_policy b s).study_type =
      some (orDefaultStr b.study_type "unknown".toList) := rfl

/-- `orDefaultStr` never returns `[]` when the default is non-empty. -/
theorem orDefaultStr_ne_nil (x : Option (List Char)) (d : List Char) (hd : d ≠ []) :
    orDefaultStr x d ≠ [] := by
  cases x with
  | none => simpa [orDefaultStr]
  | some s => by_cases hs : s = [] <;> simp [orDefaultStr, hs, hd]

/-- `orDefaultStr` is the identity on non-empty strings. -/
theorem orDefaultStr_some_of_ne (x d : List Char) (hx : x ≠ []) :
    orDefaultStr (some x) d = x := by
  simp [orDefaultStr, hx]

/-- Rule 3's condition is stable under the policy. -/
theorem lowLevelP_policy (b : ClaimAnalysis) (s : List EvidenceSource) :
    lowLevelP (_apply_evidence_policy b s) ↔ lowLevelP b := by
  unfold lowLevelP
  rw [policy_evidence_level,
    orDefaultStr_some_of_ne _ _ (orDefaultStr_ne_nil _ _ (by decide))]

/-- Rule 4's condition is stable under the policy. -/
theorem nonHumanP_policy (b : ClaimAnalysis) (s : List EvidenceSource) :
    nonHumanP (_apply_evidence_policy b s) s ↔ nonHumanP b s := by
  unfold nonHumanP
  rw [policy_study_type,
    orDefaultStr_some_of_ne _ _ (orDefaultStr_ne_nil _ _ (by decide))]

set_option maxHeartbeats 1000000 in
/-- With non-empty evidence the output verdict is never `no_evidence_found`,
    and an incoming `no_evidence_found` is promoted to
    `unsupported_by_evidence`. -/
theorem policy_nonempty (b : ClaimAnalysis) (s : List EvidenceSource) (hs : s ≠ []) :
    (_apply_evidence_policy b s).verdict ≠ noEvidenceV ∧
    (b.verdict = noEvidenceV → (_apply_evidence_policy b s).verdict = unsupportedV) := by
  simp only [_apply_evidence_policy, hs]
  split_ifs <;> simp_all [canonical_verdicts_distinct]

set_option maxHeartbeats 1000000 in
/-- Under the weak-evidence condition the output verdict is never
    `supported`. -/
theorem policy_low_verdict (b : ClaimAnalysis) (s : List EvidenceSource)
    (hL : lowLevelP b) : (_apply_evidence_policy b s).verdict ≠ supportedV := by
  unfold lowLevelP at hL
  simp only [_apply_evidence_policy]
  split_ifs <;> simp_all [canonical_verdicts_distinct]

set_option maxHeartbeats 1000000 in
/-- Under the non-human condition the output verdict is neither `supported`
    nor `partially_supported`. -/
theorem policy_nonhuman_verdict (b : ClaimAnalysis) (s : List EvidenceSource)
    (hN : nonHumanP b s) :
    (_apply_evidence_policy b s).verdict ≠ supportedV ∧
    (_apply_evidence_policy b s).verdict ≠ partiallySupportedV := by
  unfold nonHumanP at hN
  simp only [_apply_evidence_policy]
  split_ifs <;> simp_all [canonical_verdicts_distinct]

/-- The output confidence always lies in [0, 1]. -/
theorem policy_conf_bounds (b : ClaimAnalysis) (s : List EvidenceSource) :
    0 ≤ (_apply_evidence_policy b s).confidence ∧
    (_apply_evidence_policy b s).confidence ≤ 1 := by
  simp only [_apply_evidence_policy, pyMin_eq_min, pyMax_eq_max]
  exact ⟨le_max_left 0 _, max_le (by decide) (min_le_right _ _)⟩

set_option maxHeartbeats 1000000 in
/-- Under the weak-evidence condition the output confidence is capped at
    0.55. -/
theorem policy_conf_low (b : ClaimAnalysis) (s : List EvidenceSource)
    (hL : lowLevelP b) :
    (_apply_evidence_policy b s).confidence ≤ mkRat 11 20 := by
  unfold lowLevelP at hL
  simp only [_apply_evidence_policy, pyMin_eq_min, pyMax_eq_max]
  refine max_le (by decide) (le_trans (min_le_left _ _) ?_)
  split_ifs <;>
    first
      | exact min_le_right _ _
      | exact le_trans (min_le_left _ _) (min_le_right _ _)
      | simp_all

set_option maxHeartbeats 1000000 in
/-- Under the non-human condition the output confidence is capped at 0.4. -/
theorem policy_conf_nonhuman (b : ClaimAnalysis) (s : List EvidenceSource)
    (hN : nonHumanP b s) :
    (_apply_evidence_policy b s).confidence ≤ mkRat 2 5 := by
  unfold nonHumanP at hN
  simp only [_apply_evidence_policy, pyMin_eq_min, pyMax_eq_max]
  refine max_le (by decide) (le_trans (min_le_left _ _) ?_)
  split_ifs <;>
    first
      | exact min_le_right _ _
      | simp_all

set_option maxHeartbeats 1000000 in
/-- When rule 4 is inactive the nuance is untouched. -/
theorem policy_nuance_of_not_nonhuman (b : ClaimAnalysis) (s : List EvidenceSource)
    (hN : ¬ nonHumanP b s) :
    (_apply_evidence_policy b s).nuance = b.nuance := by
  unfold nonHumanP at hN
  simp only [_apply_evidence_policy]
  split_ifs <;> simp_all

set_option maxHeartbeats 1000000 in
/-- When rule 4 is active the output nuance exists, is non-empty, and
    contains the non-human note. -/
theorem policy_nuance_of_nonhuman (b : ClaimAnalysis) (s : List EvidenceSource)
    (hN : nonHumanP b s) :
    ∃ n, (_apply_evidence_policy b s).nuance = some n ∧ n ≠ [] ∧
      nonHumanNote <:+: n := by
  have hN' := hN
  unfold nonHumanP at hN'
  simp only [_apply_evidence_policy]
  rw [if_pos hN']
  cases hb : b.nuance with
  | none =>
    exact ⟨nonHumanNote, rfl, (nonHumanNote_facts).1, List.infix_refl _⟩
  | some s' =>
    dsimp only
    by_cases hs' : s' = []
    · subst hs'
      simp only [if_pos rfl]
      exact ⟨nonHumanNote, rfl, (nonHumanNote_facts).1, List.infix_refl _⟩
    · rw [if_neg hs']
      by_cases hin : nonHumanNote <:+: s'
      · rw [if_pos hin]
        exact ⟨s', rfl, hs', hin⟩
      · rw [if_neg hin]
        have hsuf : nonHumanNote <:+ s' ++ ' ' :: nonHumanNote := by
          rw [List.append_cons]
          exact List.suffix_append _ _
        have h1 := (note_suffix_pyStrip _ hsuf).1
        refine ⟨pyStrip (s' ++ ' ' :: nonHumanNote), rfl, ?_, h1.isInfix⟩
        intro hnil
        rw [hnil, List.suffix_nil] at h1
        exact (nonHumanNote_facts).1 h1

set_option maxHeartbeats 1000000 in
/-- Applying the policy to an analysis that already satisfies all the
    policy's verdict consequences leaves the verdict unchanged. -/
theorem policy_verdict_of_stable_input (X : ClaimAnalysis) (s : List EvidenceSource)
    (hs : s ≠ []) (h1 : X.verdict ≠ noEvidenceV)
    (h2 : lowLevelP X → X.verdict ≠ supportedV)
    (h3 : nonHumanP X s → X.verdict ≠ supportedV ∧ X.verdict ≠ partiallySupportedV) :
    (_apply_evidence_policy X s).verdict = X.verdict := by
  unfold lowLevelP at h2
  unfold nonHumanP at h3
  simp only [_apply_evidence_policy]
  split_ifs <;> simp_all [canonical_verdicts_distinct]

/-- The policy's output verdict is a fixed point of the policy. -/
theorem policy_verdict_stable (b : ClaimAnalysis) (s : List EvidenceSource) :
    (_apply_evidence_policy (_apply_evidence_policy b s) s).verdict =
      (_apply_evidence_policy b s).verdict := by
  by_cases hs : s = []
  · subst hs
    rw [(policy_empty (_apply_evidence_policy b [])).1, (policy_empty b).1]
  · refine policy_verdict_of_stable_input _ _ hs ((policy_nonempty b s hs).1) ?_ ?_
    · intro hL
      exact policy_low_verdict b s ((lowLevelP_policy b s).mp hL)
    · intro hN
      exact policy_nonhuman_verdict b s ((nonHumanP_policy b s).mp hN)

set_option maxHeartbeats 1000000 in
/-- Applying the policy to an analysis whose confidence already satisfies
    every active cap leaves the confidence unchanged. -/
theorem policy_conf_of_stable_input (X : ClaimAnalysis) (s : List EvidenceSource)
    (hEmpty : s = [] → X.verdict = noEvidenceV)
    (h0 : 0 ≤ X.confidence) (h1 : X.confidence ≤ 1)
    (hL : lowLevelP X → X.confidence ≤ mkRat 11 20)
    (hN : nonHumanP X s → X.confidence ≤ mkRat 2 5) :
    (_apply_evidence_policy X s).confidence = X.confidence := by
  unfold lowLevelP at hL
  unfold nonHumanP at hN
  simp only [_apply_evidence_policy, pyMin_eq_min, pyMax_eq_max]
  split_ifs <;>
    first
      | rw [min_eq_left (hL ‹_›), min_eq_left (hN ‹_›), min_eq_left h1, max_eq_right h0]
      | rw [min_eq_left (hL ‹_›), min_eq_left h1, max_eq_right h0]
      | rw [min_eq_left (hN ‹_›), min_eq_left h1, max_eq_right h0]
      | rw [min_eq_left h1, max_eq_right h0]
      | simp_all

/-- The policy's output confidence is a fixed point of the policy. -/
theorem policy_conf_stable (b : ClaimAnalysis) (s : List EvidenceSource) :
    (_apply_evidence_policy (_apply_evidence_policy b s) s).confidence =
      (_apply_evidence_policy b s).confidence := by
  refine policy_conf_of_stable_input _ _ ?_ (policy_conf_bounds b s).1
    (policy_conf_bounds b s).2 ?_ ?_
  · intro hs
    subst hs
    exact (policy_empty b).1
  · intro hL
    exact policy_conf_low b s ((lowLevelP_policy b s).mp hL)
  · intro hN
    exact policy_conf_nonhuman b s ((nonHumanP_policy b s).mp hN)

/-- If the incoming nuance already contains the note, rule 4 leaves the
    nuance unchanged. -/
theorem policy_nuance_unchanged_of_contains (X : ClaimAnalysis) (s : List EvidenceSource)
    (n : List Char) (hn : X.nuance = some n) (hne : n ≠ [])
    (hinf : nonHumanNote <:+: n) :
    (_apply_evidence_policy X s).nuance = X.nuance := by
  simp only [_apply_evidence_policy]
  rw [hn]
  dsimp only
  rw [if_neg hne, if_pos hinf, ite_self]

/-- The policy's output nuance is a fixed point of the policy. -/
theorem policy_nuance_stable (b : ClaimAnalysis) (s : List EvidenceSource) :
    (_apply_evidence_policy (_apply_evidence_policy b s) s).nuance =
      (_apply_evidence_policy b s).nuance := by
  by_cases hN : nonHumanP b s
  · obtain ⟨n, hn, hne, hinf⟩ := policy_nuance_of_nonhuman b s hN
    exact policy_nuance_unchanged_of_contains _ s n hn hne hinf
  · refine policy_nuance_of_not_nonhuman _ s fun h => hN ?_
    exact (nonHumanP_policy b s).mp h

/-- Field-wise extensionality for `ClaimAnalysis`. -/
theorem claimAnalysis_eq_of_fields (x y : ClaimAnalysis)
    (h1 : x.verdict = y.verdict) (h2 : x.confidence = y.confidence)
    (h3 : x.explanation = y.explanation) (h4 : x.nuance = y.nuance)
    (h5 : x.evidence_level = y.evidence_level) (h6 : x.study_type = y.study_type) :
    x = y := by
  cases x
  cases y
  simp_all

/-! ## C4: idempotence of the policy pass -/

/-- C4: the deterministic policy pass is idempotent — applying
    `_apply_evidence_policy` to its own output (with the same evidence list)
    returns that output unchanged, for every analysis and evidence list. -/
theorem c4_policy_idempotent (a : ClaimAnalysis) (sources : List EvidenceSource) :
    _apply_evidence_policy (_apply_evidence_policy a sources) sources =
      _apply_evidence_policy a sources := by
  refine claimAnalysis_eq_of_fields _ _ (policy_verdict_stable a sources)
    (policy_conf_stable a sources) (policy_explanation _ _)
    (policy_nuance_stable a sources) ?_ ?_
  · rw [policy_evidence_level, policy_evidence_level,
      orDefaultStr_some_of_ne _ _ (orDefaultStr_ne_nil _ _ (by decide))]
  · rw [policy_study_type, policy_study_type,
      orDefaultStr_some_of_ne _ _ (orDefaultStr_ne_nil _ _ (by decide))]

/-! ## Occurrence counting (formalizing "appears exactly once") -/

/-- Number of positions of `s` at which `pat` occurs (Python
    `s.count(pat)`-style substring occurrence count, counting every start
    position). -/
def countOcc (pat s : List Char) : Nat :=
  ((List.range (s.length + 1)).filter (fun i => decide (pat <+: s.drop i))).length

/-- A pattern is an infix exactly when it is a prefix of some suffix. -/
theorem infix_iff_exists_drop (pat s : List Char) :
    pat <:+: s ↔ ∃ i, i ≤ s.length ∧ pat <+: s.drop i := by
  constructor
  · intro h
    obtain ⟨u, v, huv⟩ := h
    refine ⟨u.length, ?_, ?_⟩
    · rw [← huv]
      simp [List.length_append]
    · rw [← huv, List.append_assoc, List.drop_left]
      exact List.prefix_append pat v
  · rintro ⟨i, _, hp⟩
    exact (hp.isInfix).trans (List.drop_suffix i s).isInfix

/-- Zero occurrences characterizes "not a substring". -/
theorem countOcc_eq_zero_iff (pat s : List Char) :
    countOcc pat s = 0 ↔ ¬ pat <:+: s := by
  unfold countOcc
  rw [List.length_eq_zero, List.filter_eq_nil_iff, infix_iff_exists_drop]
  constructor
  · rintro h ⟨i, hi, hp⟩
    exact h i (List.mem_range.mpr (by omega)) (by simpa using hp)
  · intro h i hi hp
    exact h ⟨i, by
      have := List.mem_range.mp hi
      omega, by simpa using hp⟩

/-- A Boolean predicate that holds exactly at one index filters `range` to
    that singleton. -/
theorem filter_range_eq_singleton (n k : Nat) (p : Nat → Bool) (hk : k < n)
    (hp : ∀ i, i < n → (p i = true ↔ i = k)) :
    (List.range n).filter p = [k] := by
  induction n with
  | zero => omega
  | succ m ih =>
    rw [List.range_succ, List.filter_append]
    by_cases hkm : k < m
    · rw [ih hkm (fun i hi => hp i (by omega))]
      have hm : p m = false := by
        by_cases pm : p m = true
        · have := (hp m (by omega)).mp pm
          omega
        · simpa using pm
      simp [hm]
    · have hk' : k = m := by omega
      subst hk'
      have h1 : (List.range k).filter p = [] := by
        rw [List.filter_eq_nil_iff]
        intro a ha hpa
        have ha' : a < k := List.mem_range.mp ha
        have := (hp a (by omega)).mp hpa
        omega
      have h2 : p k = true := (hp k (by omega)).mpr rfl
      simp [h1, h2]

/-- If the occurrence position is unique, the count is one. -/
theorem countOcc_eq_one_of_unique (pat s : List Char) (k : Nat) (hk : k ≤ s.length)
    (h : ∀ i, i ≤ s.length → (pat <+: s.drop i ↔ i = k)) :
    countOcc pat s = 1 := by
  unfold countOcc
  rw [filter_range_eq_singleton (s.length + 1) k (fun i => decide (pat <+: s.drop i))
    (by omega) (fun i hi => by simpa using h i (by omega))]
  rfl

/-- A non-empty pattern occurs in itself exactly once. -/
theorem countOcc_self (pat : List Char) (hne : pat ≠ []) : countOcc pat pat = 1 := by
  apply countOcc_eq_one_of_unique pat pat 0 (Nat.zero_le _)
  intro i hi
  constructor
  · intro hp
    by_contra hne0
    have hlen := hp.length_le
    rw [List.length_drop] at hlen
    have : 0 < pat.length := List.length_pos.mpr hne
    omega
  · rintro rfl
    simpa using List.prefix_refl pat

set_option maxHeartbeats 1000000 in
/-- Appending `" " ++ pat` to a string that does not contain `pat` yields a
    string containing `pat` exactly once, provided `pat` does not start with
    a space and has no self-overlap across an internal space. -/
theorem countOcc_append_sep (pat s : List Char) (hne : pat ≠ [])
    (hhead : pat.head? ≠ some ' ')
    (hov : ∀ u w, pat = u ++ ' ' :: w → ¬ (w <+: pat))
    (hs : ¬ pat <:+: s) :
    countOcc pat (s ++ ' ' :: pat) = 1 := by
  have hplen : 0 < pat.length := List.length_pos.mpr hne
  apply countOcc_eq_one_of_unique pat _ (s.length + 1)
    (by rw [List.length_append, List.length_cons]; omega)
  intro i hi
  constructor
  · intro hp
    by_contra hne2
    rcases Nat.lt_trichotomy i (s.length + 1) with hlt | heq | hgt
    · rcases Nat.lt_or_ge i s.length with hi_lt | hi_ge
      · -- i < s.length : the occurrence would lie inside s or straddle the space
        have hdrop : (s ++ ' ' :: pat).drop i = s.drop i ++ ' ' :: pat :=
          List.drop_append_of_le_length (by omega)
        rw [hdrop] at hp
        obtain ⟨v, hv⟩ := hp
        have h1 : (pat ++ v).take pat.length = pat := List.take_left _ _
        rcases le_or_lt pat.length (s.drop i).length with hle | hgt2
        · -- pat fits inside the suffix of s : contradiction with hs
          have h2 : (s.drop i ++ ' ' :: pat).take pat.length =
              (s.drop i).take pat.length := List.take_append_of_le_length hle
          have h3 : pat = (s.drop i).take pat.length := by
            calc pat = (pat ++ v).take pat.length := h1.symm
              _ = (List.drop i s ++ ' ' :: pat).take pat.length := by rw [hv]
              _ = (List.drop i s).take pat.length := h2
          have h4 : pat <+: s.drop i := by
            refine ⟨(s.drop i).drop pat.length, ?_⟩
            nth_rewrite 1 [h3]
            exact List.take_append_drop _ _
          exact hs ((h4.isInfix).trans (List.drop_suffix i s).isInfix)
        · -- pat straddles the inserted space : contradiction with hov
          have h2 : (s.drop i ++ ' ' :: pat).take pat.length =
              s.drop i ++ (' ' :: pat).take (pat.length - (s.drop i).length) := by
            rw [List.take_append_eq_append_take]
            congr 1
            exact List.take_of_length_le (by omega)
          have h3 : (' ' :: pat).take (pat.length - (s.drop i).length) =
              ' ' :: pat.take (pat.length - (s.drop i).length - 1) := by
            have hsucc : pat.length - (s.drop i).length =
                (pat.length - (s.drop i).length - 1) + 1 := by omega
            conv_lhs => rw [hsucc]
            rw [List.take_succ_cons]
          have hdecomp : pat = s.drop i ++ ' ' ::
              pat.take (pat.length - (s.drop i).length - 1) := by
            calc pat = (pat ++ v).take pat.length := h1.symm
              _ = (List.drop i s ++ ' ' :: pat).take pat.length := by rw [hv]
              _ = List.drop i s ++
                  (' ' :: pat).take (pat.length - (List.drop i s).length) := h2
              _ = List.drop i s ++
                  ' ' :: pat.take (pat.length - (List.drop i s).length - 1) := by
                rw [h3]
          exact hov _ _ hdecomp (List.take_prefix _ _)
      · -- i = s.length : the occurrence would start at the space
        have hieq : i = s.length := by omega
        subst hieq
        have hdrop : (s ++ ' ' :: pat).drop s.length = ' ' :: pat :=
          List.drop_left _ _
        rw [hdrop] at hp
        cases hpat : pat with
        | nil => exact hne hpat
        | cons c cs =>
          obtain ⟨v, hv⟩ := hp
          rw [hpat] at hv
          have hc : c = ' ' := by
            have := congrArg List.head? hv
            simpa using this
          apply hhead
          rw [hpat, hc]
          rfl
    · exact hne2 heq
    · -- i > s.length + 1 : the remaining suffix is shorter than pat
      have hlen := hp.length_le
      rw [List.length_drop, List.length_append] at hlen
      simp only [List.length_cons] at hlen
      omega
  · rintro rfl
    have hd : (s ++ ' ' :: pat).drop (s.length + 1) = pat := by
      have h0 := List.drop_left (s ++ [' ']) pat
      rw [List.length_append, List.append_assoc] at h0
      exact h0
    rw [hd]

set_option maxHeartbeats 1000000 in
set_option maxRecDepth 4000 in
/-- The non-human note has no self-overlap across any of its internal
    spaces: when it is split at a space, the part after the space is never a
    prefix of the whole note (decided over all split positions). -/
theorem nonHumanNote_no_overlap :
    ∀ u w, nonHumanNote = u ++ ' ' :: w → ¬ (w <+: nonHumanNote) := by
  have hall : ∀ d ∈ List.range nonHumanNote.length,
      (decide (nonHumanNote.take d ++ ' ' :: nonHumanNote.drop (d + 1) = nonHumanNote) &&
        (nonHumanNote.drop (d + 1)).isPrefixOf nonHumanNote) = false := by decide
  intro u w heq hw
  have hd : u.length < nonHumanNote.length := by
    have hlen := congrArg List.length heq
    simp [List.length_append] at hlen
    omega
  have hu : nonHumanNote.take u.length = u := by
    rw [heq]
    exact List.take_left u _
  have hwdrop : nonHumanNote.drop (u.length + 1) = w := by
    rw [heq]
    have h0 := List.drop_left (u ++ [' ']) w
    rw [List.length_append, List.append_assoc] at h0
    exact h0
  have hinst := hall u.length (List.mem_range.mpr hd)
  rw [hu, hwdrop] at hinst
  have h2 : u ++ ' ' :: w = nonHumanNote := heq.symm
  have h3 : w.isPrefixOf nonHumanNote = true := List.isPrefixOf_iff_prefix.mpr hw
  simp [h2, h3] at hinst

/-- Case analysis for a leading `dropWhile` over `s ++ " " ++ note`. -/
theorem dropWhile_append_note (s : List Char) :
    (s ++ ' ' :: nonHumanNote).dropWhile pyIsSpace =
      (s.dropWhile pyIsSpace) ++ ' ' :: nonHumanNote ∨
    (s ++ ' ' :: nonHumanNote).dropWhile pyIsSpace = nonHumanNote := by
  induction s with
  | nil =>
    right
    show List.dropWhile pyIsSpace (' ' :: nonHumanNote) = _
    rw [List.dropWhile_cons_of_pos (by decide)]
    exact (nonHumanNote_facts).2.1
  | cons c cs ih =>
    by_cases hc : pyIsSpace c
    · rw [List.cons_append, List.dropWhile_cons_of_pos hc,
        List.dropWhile_cons_of_pos hc]
      exact ih
    · left
      rw [List.cons_append, List.dropWhile_cons_of_neg (by simpa using hc),
        List.dropWhile_cons_of_neg (by simpa using hc), List.cons_append]

/-- Appending the note (with a space separator) to a nuance that did not
    contain it, then stripping, yields exactly one occurrence. -/
theorem countOcc_note_pyStrip_append (s : List Char)
    (hs : ¬ nonHumanNote <:+: s) :
    countOcc nonHumanNote (pyStrip (s ++ ' ' :: nonHumanNote)) = 1 := by
  have hsuf : nonHumanNote <:+ s ++ ' ' :: nonHumanNote := by
    rw [List.append_cons]
    exact List.suffix_append _ _
  rw [(note_suffix_pyStrip _ hsuf).2]
  rcases dropWhile_append_note s with h | h
  · rw [h]
    refine countOcc_append_sep _ _ (nonHumanNote_facts).1 (by decide)
      nonHumanNote_no_overlap ?_
    intro hinf
    exact hs (hinf.trans (List.dropWhile_suffix pyIsSpace).isInfix)
  · rw [h]
    exact countOcc_self _ (nonHumanNote_facts).1

set_option maxHeartbeats 1000000 in
/-- Under the non-human condition the output nuance contains the note
    exactly once, provided the incoming nuance contained it at most once. -/
theorem policy_nuance_count (b : ClaimAnalysis) (s : List EvidenceSource)
    (hN : nonHumanP b s)
    (hc : ∀ n0, b.nuance = some n0 → countOcc nonHumanNote n0 ≤ 1) :
    ∃ n, (_apply_evidence_policy b s).nuance = some n ∧
      countOcc nonHumanNote n = 1 := by
  have hN' := hN
  unfold nonHumanP at hN'
  simp only [_apply_evidence_policy]
  rw [if_pos hN']
  cases hb : b.nuance with
  | none => exact ⟨nonHumanNote, rfl, countOcc_self _ (nonHumanNote_facts).1⟩
  | some n0 =>
    dsimp only
    by_cases h0 : n0 = []
    · rw [if_pos h0]
      exact ⟨nonHumanNote, rfl, countOcc_self _ (nonHumanNote_facts).1⟩
    · rw [if_neg h0]
      by_cases hin : nonHumanNote <:+: n0
      · rw [if_pos hin]
        refine ⟨n0, rfl, ?_⟩
        have hge : countOcc nonHumanNote n0 ≠ 0 := by
          intro hz
          rw [countOcc_eq_zero_iff] at hz
          exact hz hin
        have hle := hc n0 hb
        omega
      · rw [if_neg hin]
        exact ⟨_, rfl, countOcc_note_pyStrip_append n0 hin⟩

set_option maxHeartbeats 1000000 in
/-- With non-empty evidence, the non-human condition forces a
    supported/partially-supported verdict down to
    `unsupported_by_evidence`. -/
theorem policy_nonhuman_forces_unsupported (b : ClaimAnalysis)
    (s : List EvidenceSource) (hs : s ≠ []) (hN : nonHumanP b s)
    (hv : b.verdict = supportedV ∨ b.verdict = partiallySupportedV) :
    (_apply_evidence_policy b s).verdict = unsupportedV := by
  unfold nonHumanP at hN
  simp only [_apply_evidence_policy]
  split_ifs <;> simp_all [canonical_verdicts_distinct]

/-! ## C5: non-human-evidence cap -/

set_option maxRecDepth 8000 in
set_option maxHeartbeats 1000000 in
/-- C5 counterexample, two concrete failures of the claim as stated:
    (a) with an *empty* evidence list (which trivially has no "Humans" tag)
    and study type `animal`, a `supported` verdict becomes
    `no_evidence_found`, not `unsupported_by_evidence`;
    (b) when the model's own nuance already contained the caveat sentence
    twice, the output nuance still contains it twice, not exactly once. -/
theorem c5_counterexample :
    ((_apply_evidence_policy
        ⟨supportedV, mkRat 9 10, "e".toList, none, some "low".toList,
          some "animal".toList⟩ []).verdict = noEvidenceV ∧
      noEvidenceV ≠ unsupportedV) ∧
    countOcc nonHumanNote
      (((_apply_evidence_policy
          ⟨supportedV, mkRat 9 10, "e".toList,
            some (nonHumanNote ++ ' ' :: nonHumanNote), some "low".toList,
            some "animal".toList⟩
          [⟨"t".toList, "u".toList, "pubmed".toList, some ["Animals".toList], 1,
            none⟩]).nuance).getD []) = 2 := by
  refine ⟨⟨by decide, by decide⟩, by decide⟩

/-- C5 (amended): for every analysis whose (defaulted) study type is
    `animal` or `in_vitro`, with a *non-empty* evidence list containing no
    source tagged `"Humans"`: a verdict of `supported` or
    `partially_supported` becomes `unsupported_by_evidence`, confidence is
    capped at 0.4, and the non-human caveat appears in the output nuance
    exactly once provided the model's own nuance contained it at most once. -/
theorem c5_nonhuman_cap (a : ClaimAnalysis) (sources : List EvidenceSource)
    (hs : sources ≠ [])
    (hst : orDefaultStr a.study_type "unknown".toList = "animal".toList ∨
      orDefaultStr a.study_type "unknown".toList = "in_vitro".toList)
    (hh : _has_human_evidence sources = false)
    (hv : a.verdict = supportedV ∨ a.verdict = partiallySupportedV)
    (hnu : ∀ n0, a.nuance = some n0 → countOcc nonHumanNote n0 ≤ 1) :
    (_apply_evidence_policy a sources).verdict = unsupportedV ∧
    (_apply_evidence_policy a sources).confidence ≤ mkRat 2 5 ∧
    ∃ n, (_apply_evidence_policy a sources).nuance = some n ∧
      countOcc nonHumanNote n = 1 := by
  have hN : nonHumanP a sources := ⟨hst, hh⟩
  exact ⟨policy_nonhuman_forces_unsupported a sources hs hN hv,
    policy_conf_nonhuman a sources hN, policy_nuance_count a sources hN hnu⟩

set_option maxRecDepth 8000 in
/-- C5 witness: a concrete supported claim backed only by a mouse study. -/
theorem c5_nonhuman_cap_witness :
    (_apply_evidence_policy
        ⟨supportedV, mkRat 9 10, "e".toList, none, none, some "animal".toList⟩
        [⟨"t".toList, "u".toList, "pubmed".toList, some ["Animals".toList], 1,
          none⟩]).verdict = unsupportedV ∧
    (_apply_evidence_policy
        ⟨supportedV, mkRat 9 10, "e".toList, none, none, some "animal".toList⟩
        [⟨"t".toList, "u".toList, "pubmed".toList, some ["Animals".toList], 1,
          none⟩]).confidence ≤ mkRat 2 5 ∧
    ∃ n, (_apply_evidence_policy
        ⟨supportedV, mkRat 9 10, "e".toList, none, none, some "animal".toList⟩
        [⟨"t".toList, "u".toList, "pubmed".toList, some ["Animals".toList], 1,
          none⟩]).nuance = some n ∧ countOcc nonHumanNote n = 1 :=
  c5_nonhuman_cap
    ⟨supportedV, mkRat 9 10, "e".toList, none, none, some "animal".toList⟩
    [⟨"t".toList, "u".toList, "pubmed".toList, some ["Animals".toList], 1, none⟩]
    (by decide) (by decide) (by decide) (Or.inl rfl)
    (fun n0 h => nomatch h)

/-! ## Claim extraction: dedup across chunks (`claim_extractor.py`) -/

/-- Embeds `ClaimDraft` with the fields `claim_extractor.py` constructs and
    mutates (spec §3: claim, timestamp, search_query). -/
structure ClaimDraft where
  claim : List Char
  timestamp : Option (List Char)
  search_query : Option (List Char)
deriving Repr, DecidableEq

/-- Python `str.casefold` as used for dedup keys (ASCII model). -/
def caseFold (l : List Char) : List Char := l.map Char.toLower

/-- One step of the dedup accumulation of `extract_claims`
    (claim_extractor.py lines 104-121): the state is (seen keys, collected
    claims); a claim whose case-folded text was already seen is skipped. -/
def dedupStep (st : List (List Char) × List ClaimDraft) (c : ClaimDraft) :
    List (List Char) × List ClaimDraft :=
  let key := caseFold c.claim
  if key ∈ st.1 then st else (key :: st.1, st.2 ++ [c])

/-- Embeds the final double loop of `extract_claims`: fold over the chunks'
    result lists in chunk order, then over each chunk's claims in order. -/
def extract_claims_dedup (results : List (List ClaimDraft)) : List ClaimDraft :=
  (results.foldl (fun st chunk => chunk.foldl dedupStep st) ([], [])).2

/-- Modelled from the claim's words: keep only the first occurrence of each
    case-folded claim text, discarding every later duplicate, preserving
    first-seen order. -/
def keepFirst : List ClaimDraft → List ClaimDraft
  | [] => []
  | c :: cs =>
    c :: keepFirst (cs.filter (fun d => caseFold d.claim ≠ caseFold c.claim))
termination_by l => l.length
decreasing_by
  simp only [List.length_cons]
  exact Nat.lt_succ_of_le (List.length_filter_le _ _)

/-- The dedup fold with arbitrary seen-set and accumulator equals the
    accumulator extended by the first-occurrence filter of the unseen
    claims. -/
theorem foldl_dedupStep (l : List ClaimDraft) (seen : List (List Char))
    (acc : List ClaimDraft) :
    (l.foldl dedupStep (seen, acc)).2 =
      acc ++ keepFirst (l.filter (fun d => caseFold d.claim ∉ seen)) := by
  induction l generalizing seen acc with
  | nil => simp [keepFirst]
  | cons c cs ih =>
    rw [List.foldl_cons]
    by_cases h : caseFold c.claim ∈ seen
    · have hstep : dedupStep (seen, acc) c = (seen, acc) := by
        simp [dedupStep, h]
      rw [hstep, ih, List.filter_cons]
      simp [h]
    · have hstep : dedupStep (seen, acc) c = (caseFold c.claim :: seen, acc ++ [c]) := by
        simp [dedupStep, h]
      rw [hstep, ih, List.filter_cons]
      have hc : decide (caseFold c.claim ∉ seen) = true := by simpa using h
      rw [hc, if_pos rfl]
      simp only [keepFirst]
      rw [List.filter_filter, List.append_assoc, List.singleton_append]
      congr 2
      refine congrArg keepFirst ?_
      apply List.filter_congr
      intro d _
      have hiff : (caseFold d.claim ∉ caseFold c.claim :: seen) ↔
          (¬ caseFold d.claim = caseFold c.claim ∧ caseFold d.claim ∉ seen) := by
        simp [List.mem_cons, not_or]
      rw [decide_eq_decide.mpr hiff]
      exact Bool.decide_and _ _

/-! ## C7: case-insensitive first-wins dedup -/

/-- C7: `extract_claims` deduplication equals the first-occurrence filter
    (case-insensitive by case-folded claim text) of the chunks' results
    flattened in chunk order: the first chunk to produce a claim text wins,
    later case-insensitive duplicates are discarded, and first-seen order is
    preserved. -/
theorem c7_dedup_first_wins (results : List (List ClaimDraft)) :
    extract_claims_dedup results = keepFirst results.flatten := by
  unfold extract_claims_dedup
  rw [show (results.foldl (fun st chunk => chunk.foldl dedupStep st) ([], []))
      = (results.flatten.foldl dedupStep ([], [])) from (List.foldl_flatten _ _ _).symm]
  rw [foldl_dedupStep]
  simp only [List.nil_append]
  have hmap : ∀ rs : List (List ClaimDraft),
      List.map (List.filter fun (d : ClaimDraft) => true) rs = rs := by
    intro rs
    induction rs with
    | nil => rfl
    | cons a l ih => simp [ih]
  simp [hmap]

/-! ## Search-query validation and the per-chunk retry loop
    (`claim_extractor.py`) -/

/-- Embeds `_normalize` (claim_extractor.py lines 146-150). -/
def _normalize (value : Option (List Char)) : Option (List Char) :=
  match value with
  | none => none
  | some s =>
    let t := pyStrip s
    if t = [] then none else some t

/-- Regex word characters (`\w`) for the `\b` boundary check. -/
def isWordChar (c : Char) : Bool := c.isAlpha || c.isDigit || c = '_'

/-- Case-insensitive whole-word suffix test: the stripped text ends with `w`
    and the character before it (if any) is not a word character — the
    meaning of `re.search(r"\b(?:AND|OR|NOT)\s*$", text, re.IGNORECASE)` for
    one operator on already-stripped text. -/
def endsWithWord (text w : List Char) : Bool :=
  let lt := pyLower text
  if w.isSuffixOf lt then
    if lt.length = w.length then true
    else
      match lt.get? (lt.length - w.length - 1) with
      | none => true
      | some c => !(isWordChar c)
  else false

/-- The dangling-operator test of `_validate_search_query` (line 219). -/
def danglingOperator (text : List Char) : Bool :=
  endsWithWord text "and".toList || endsWithWord text "or".toList ||
    endsWithWord text "not".toList

/-- Embeds `_validate_search_query` (claim_extractor.py lines 214-235):
    `none` means valid, otherwise the failure reason. -/
def _validate_search_query (query : List Char) : Option (List Char) :=
  let text := pyStrip query
  if text.length < 12 then some "too_short".toList
  else if danglingOperator text then some "dangling_operator".toList
  else if text.getLast? = some '(' then some "dangling_open_paren".toList
  else if text.count '(' ≠ text.count ')' then some "unbalanced_parentheses".toList
  else if text.count '"' % 2 ≠ 0 then some "unbalanced_quotes".toList
  else if text.count '[' ≠ text.count ']' then some "unbalanced_brackets".toList
  else none

/-- One usable entry of the query-generation LLM response's `claims` array
    (non-dict items and non-integer ids are skipped by the source, so they
    are not represented). -/
structure QueryItem where
  id : Int
  search_query : Option (List Char)
deriving Repr, DecidableEq

/-- Replace the search query of the claim at 0-based index `i` (no-op when
    out of range). -/
def setQuery (cs : List ClaimDraft) (i : Nat) (v : Option (List Char)) :
    List ClaimDraft :=
  match cs.get? i with
  | none => cs
  | some c => cs.set i { c with search_query := v }

/-- Embeds `_apply_search_queries` (claim_extractor.py lines 167-181): items
    whose integer id lies in `[1, len]` assign `claims[id-1].search_query`;
    all other items are skipped. -/
def _apply_search_queries (claims : List ClaimDraft) (items : List QueryItem) :
    List ClaimDraft :=
  items.foldl
    (fun cs item =>
      if item.id < 1 ∨ item.id > (cs.length : Int) then cs
      else setQuery cs (item.id.toNat - 1) (_normalize item.search_query))
    claims

/-- Embeds `_reset_search_queries` (claim_extractor.py lines 184-186). -/
def _reset_search_queries (claims : List ClaimDraft) : List ClaimDraft :=
  claims.map fun c => { c with search_query := none }

/-- Helper for `_collect_invalid_search_queries`: walk the claims with their
    1-based index, recording (index, reason) for a missing or invalid
    query. -/
def collectInvalidFrom (idx : Nat) : List ClaimDraft → List (Nat × List Char)
  | [] => []
  | c :: cs =>
    match c.search_query with
    | none => (idx, "missing".toList) :: collectInvalidFrom (idx + 1) cs
    | some q =>
      match _validate_search_query q with
      | some r => (idx, r) :: collectInvalidFrom (idx + 1) cs
      | none => collectInvalidFrom (idx + 1) cs

/-- Embeds `_collect_invalid_search_queries` (claim_extractor.py lines
    201-211), with the `f"id={index}:{reason}"` message reduced to the pair
    (index, reason). -/
def _collect_invalid_search_queries (claims : List ClaimDraft) :
    List (Nat × List Char) :=
  collectInvalidFrom 1 claims

/-- `_SEARCH_QUERY_MAX_ATTEMPTS` (claim_extractor.py line 19). -/
def _SEARCH_QUERY_MAX_ATTEMPTS : Nat := 3

/-- One iteration of the query loop in `_extract_chunk`: reset all queries,
    apply the LLM response of this attempt (the oracle models
    `llm.generate_json`), collect the invalid ones. -/
def queryAttempt (oracle : Nat → List QueryItem) (claims : List ClaimDraft)
    (attempt : Nat) : List ClaimDraft × List (Nat × List Char) :=
  let updated := _apply_search_queries (_reset_search_queries claims) (oracle attempt)
  (updated, _collect_invalid_search_queries updated)

/-- The `for attempt in range(1, _SEARCH_QUERY_MAX_ATTEMPTS + 1)` loop of
    `_extract_chunk` (lines 64-89): run the attempts in order, breaking as
    soon as no query is invalid, threading the mutated claims list. -/
def queryLoop (oracle : Nat → List QueryItem) (claims : List ClaimDraft) :
    List Nat → List ClaimDraft × List (Nat × List Char)
  | [] => (claims, [])
  | [a] => queryAttempt oracle claims a
  | a :: rest =>
    let r := queryAttempt oracle claims a
    if r.2 = [] then r else queryLoop oracle r.1 rest

/-- Embeds the query-generation stage of `_extract_chunk` (lines 57-96): an
    empty extraction returns immediately; otherwise after the attempt loop
    any remaining invalid query raises (`Except.error`), else the claims are
    returned. -/
def extractChunkQueries (oracle : Nat → List QueryItem) (claims : List ClaimDraft) :
    Except (List (Nat × List Char)) (List ClaimDraft) :=
  if claims = [] then Except.ok claims
  else
    let r := queryLoop oracle claims (List.range' 1 _SEARCH_QUERY_MAX_ATTEMPTS)
    if r.2 = [] then Except.ok r.1 else Except.error r.2

/-- Modelled from the claim's words, the five enumerated structural rules:
    minimum length, no trailing AND/OR/NOT operator, balanced (equal-count)
    parentheses, an even number of double quotes, balanced square
    brackets. -/
def claimedValidQuery (query : List Char) : Bool :=
  let text := pyStrip query
  decide (12 ≤ text.length) && !danglingOperator text &&
    (text.count '(' == text.count ')') && (text.count '"' % 2 == 0) &&
    (text.count '[' == text.count ']')

/-- No invalid entry collected iff every claim carries a validator-accepted
    query. -/
theorem collectInvalidFrom_eq_nil_iff (idx : Nat) (claims : List ClaimDraft) :
    collectInvalidFrom idx claims = [] ↔
      ∀ c ∈ claims, ∃ q, c.search_query = some q ∧
        _validate_search_query q = none := by
  induction claims generalizing idx with
  | nil => simp [collectInvalidFrom]
  | cons c cs ih =>
    cases hq : c.search_query with
    | none =>
      simp only [collectInvalidFrom, hq]
      constructor
      · intro h
        cases h
      · intro h
        obtain ⟨q, hq', _⟩ := h c (List.mem_cons_self c cs)
        rw [hq] at hq'
        cases hq'
    | some q =>
      cases hv : _validate_search_query q with
      | none =>
        simp only [collectInvalidFrom, hq, hv]
        rw [ih (idx + 1)]
        constructor
        · intro h d hd
          rcases List.mem_cons.mp hd with rfl | hd'
          · exact ⟨q, hq, hv⟩
          · exact h d hd'
        · intro h d hd
          exact h d (List.mem_cons_of_mem c hd)
      | some r =>
        simp only [collectInvalidFrom, hq, hv]
        constructor
        · intro h
          cases h
        · intro h
          obtain ⟨q', hq', hv'⟩ := h c (List.mem_cons_self c cs)
          rw [hq] at hq'
          injection hq' with hq''
          rw [← hq''] at hv'
          rw [hv] at hv'
          cases hv'

/-- The invalid list a `queryLoop` returns is the collected invalid list of
    the claims it returns (for a non-empty attempt list). -/
theorem queryLoop_snd (oracle : Nat → List QueryItem) (claims : List ClaimDraft)
    (attempts : List Nat) (h : attempts ≠ []) :
    (queryLoop oracle claims attempts).2 =
      _collect_invalid_search_queries (queryLoop oracle claims attempts).1 := by
  induction attempts generalizing claims with
  | nil => exact absurd rfl h
  | cons a rest ih =>
    cases rest with
    | nil => rfl
    | cons b rest' =>
      simp only [queryLoop]
      by_cases hr : (queryAttempt oracle claims a).2 = []
      · rw [if_pos hr]
        rfl
      · rw [if_neg hr]
        exact ih _ (by simp)

/-- Setting an index to the value it already holds is the identity. -/
theorem set_get_eq_self {α : Type} (l : List α) (i : Nat) (a : α)
    (h : l.get? i = some a) : l.set i a = l := by
  induction l generalizing i with
  | nil => rfl
  | cons x xs ih =>
    cases i with
    | zero =>
      injection h with h'
      rw [List.set]
      rw [h']
    | succ n =>
      rw [List.set]
      rw [ih n h]

/-- Resetting after a single query assignment equals resetting alone. -/
theorem reset_setQuery (cs : List ClaimDraft) (i : Nat) (v : Option (List Char)) :
    _reset_search_queries (setQuery cs i v) = _reset_search_queries cs := by
  unfold setQuery
  cases h : cs.get? i with
  | none => rfl
  | some c =>
    unfold _reset_search_queries
    rw [List.map_set]
    exact set_get_eq_self _ i _ (by rw [List.get?_map, h]; rfl)

/-- Resetting erases whatever `_apply_search_queries` wrote. -/
theorem reset_apply (cs : List ClaimDraft) (items : List QueryItem) :
    _reset_search_queries (_apply_search_queries cs items) =
      _reset_search_queries cs := by
  induction items generalizing cs with
  | nil => rfl
  | cons item rest ih =>
    unfold _apply_search_queries
    rw [List.foldl_cons]
    by_cases h : item.id < 1 ∨ item.id > (cs.length : Int)
    · rw [if_pos h]
      exact ih cs
    · rw [if_neg h]
      rw [show (List.foldl _ (setQuery cs (item.id.toNat - 1)
          (_normalize item.search_query)) rest : List ClaimDraft) =
        _apply_search_queries (setQuery cs (item.id.toNat - 1)
          (_normalize item.search_query)) rest from rfl]
      rw [ih _]
      exact reset_setQuery cs _ _

/-- Resetting is idempotent. -/
theorem reset_reset (cs : List ClaimDraft) :
    _reset_search_queries (_reset_search_queries cs) = _reset_search_queries cs := by
  unfold _reset_search_queries
  rw [List.map_map]
  rfl

/-- A query attempt depends on the claims only through their reset form. -/
theorem queryAttempt_congr (oracle : Nat → List QueryItem)
    (c1 c2 : List ClaimDraft) (k : Nat)
    (h : _reset_search_queries c1 = _reset_search_queries c2) :
    queryAttempt oracle c1 k = queryAttempt oracle c2 k := by
  unfold queryAttempt
  rw [h]

/-- The reset form is invariant across query attempts. -/
theorem reset_queryAttempt (oracle : Nat → List QueryItem)
    (claims : List ClaimDraft) (k : Nat) :
    _reset_search_queries (queryAttempt oracle claims k).1 =
      _reset_search_queries claims := by
  unfold queryAttempt
  rw [reset_apply, reset_reset]

/-- If every attempt (evaluated against the original claims) leaves some
    query invalid, the loop ends with a non-empty invalid list. -/
theorem queryLoop_error (oracle : Nat → List QueryItem) (claims : List ClaimDraft)
    (attempts : List Nat) (h : attempts ≠ [])
    (hall : ∀ k ∈ attempts, (queryAttempt oracle claims k).2 ≠ []) :
    ∀ X, _reset_search_queries X = _reset_search_queries claims →
      (queryLoop oracle X attempts).2 ≠ [] := by
  induction attempts generalizing claims with
  | nil => exact absurd rfl h
  | cons a rest ih =>
    intro X hX
    have hXa : queryAttempt oracle X a = queryAttempt oracle claims a :=
      queryAttempt_congr oracle X claims a hX
    cases rest with
    | nil =>
      show (queryAttempt oracle X a).2 ≠ []
      rw [hXa]
      exact hall a (List.mem_cons_self _ _)
    | cons b rest' =>
      simp only [queryLoop]
      have hr : (queryAttempt oracle X a).2 ≠ [] := by
        rw [hXa]
        exact hall a (List.mem_cons_self _ _)
      rw [if_neg hr]
      refine ih claims (by simp) (fun k hk => hall k (List.mem_cons_of_mem a hk))
        _ ?_
      rw [reset_queryAttempt oracle X a, hX]

/-- Applying query assignments to an empty claims list yields an empty
    list. -/
theorem apply_search_queries_nil (items : List QueryItem) :
    _apply_search_queries [] items = [] := by
  induction items with
  | nil => rfl
  | cons item rest ih =>
    unfold _apply_search_queries
    rw [List.foldl_cons]
    have hstep : (if item.id < 1 ∨ item.id > ((List.length ([] : List ClaimDraft)) : Int)
        then ([] : List ClaimDraft)
        else setQuery [] (item.id.toNat - 1) (_normalize item.search_query)) = [] := by
      split_ifs <;> rfl
    rw [hstep]
    exact ih

/-- A query attempt on an empty claims list reports no invalid queries. -/
theorem queryAttempt_nil (oracle : Nat → List QueryItem) (k : Nat) :
    queryAttempt oracle [] k = ([], []) := by
  unfold queryAttempt
  rw [show _reset_search_queries [] = ([] : List ClaimDraft) from rfl,
    apply_search_queries_nil]
  rfl

/-! ## C8: query validation, retry cap, and chunk failure -/

/-- C8 counterexample: the query `"cancer risk) ("` satisfies all five
    structural rules enumerated by the claim (length, no trailing operator,
    equal parenthesis counts, even quotes, equal bracket counts) yet the
    validator rejects it: the rule set also contains a no-trailing-open-
    parenthesis check the claim omits. -/
theorem c8_counterexample :
    claimedValidQuery "cancer risk) (".toList = true ∧
    _validate_search_query "cancer risk) (".toList =
      some "dangling_open_paren".toList := by
  exact ⟨by decide, by decide⟩

/-- C8 (amended): (i) a query is accepted by `_validate_search_query`
    exactly when it passes the six structural rules — minimum length 12, no
    trailing AND/OR/NOT, no trailing open parenthesis, equal parenthesis
    counts, an even number of double quotes, equal bracket counts; (ii) a
    chunk that returns claims returns only claims whose `search_query` is
    present and valid; (iii) if every one of the 3 capped attempts leaves
    some query missing or invalid, the chunk fails with an error. -/
theorem c8_query_validation :
    (∀ q : List Char, _validate_search_query q = none ↔
      (12 ≤ (pyStrip q).length ∧ danglingOperator (pyStrip q) = false ∧
        (pyStrip q).getLast? ≠ some '(' ∧
        (pyStrip q).count '(' = (pyStrip q).count ')' ∧
        (pyStrip q).count '"' % 2 = 0 ∧
        (pyStrip q).count '[' = (pyStrip q).count ']')) ∧
    (∀ (oracle : Nat → List QueryItem) (claims out : List ClaimDraft),
      extractChunkQueries oracle claims = Except.ok out →
      ∀ c ∈ out, ∃ q, ClaimDraft.search_query c = some q ∧
        _validate_search_query q = none) ∧
    (∀ (oracle : Nat → List QueryItem) (claims : List ClaimDraft),
      (∀ k ∈ List.range' 1 _SEARCH_QUERY_MAX_ATTEMPTS,
        (queryAttempt oracle claims k).2 ≠ []) →
      ∃ e, extractChunkQueries oracle claims = Except.error e) := by
  refine ⟨?_, ?_, ?_⟩
  · intro q
    unfold _validate_search_query
    dsimp only
    split_ifs <;> simp_all <;> omega
  · intro oracle claims out hok c hc
    by_cases hcl : claims = []
    · rw [extractChunkQueries, if_pos hcl] at hok
      injection hok with hout
      rw [← hout, hcl] at hc
      cases hc
    · rw [extractChunkQueries, if_neg hcl] at hok
      by_cases hr2 : (queryLoop oracle claims
          (List.range' 1 _SEARCH_QUERY_MAX_ATTEMPTS)).2 = []
      · rw [if_pos hr2] at hok
        injection hok with hout
        have hcollect := queryLoop_snd oracle claims
          (List.range' 1 _SEARCH_QUERY_MAX_ATTEMPTS) (by decide)
        rw [hr2] at hcollect
        unfold _collect_invalid_search_queries at hcollect
        rw [hout] at hcollect
        exact (collectInvalidFrom_eq_nil_iff 1 out).mp hcollect.symm c hc
      · rw [if_neg hr2] at hok
        cases hok
  · intro oracle claims hall
    by_cases hcl : claims = []
    · subst hcl
      have h1 := hall 1 (by decide)
      rw [queryAttempt_nil] at h1
      exact absurd rfl h1
    · rw [extractChunkQueries, if_neg hcl]
      have hne := queryLoop_error oracle claims
        (List.range' 1 _SEARCH_QUERY_MAX_ATTEMPTS) (by decide) hall claims rfl
      rw [if_neg hne]
      exact ⟨_, rfl⟩

/-- C8 witness: a valid query is accepted on the first attempt and returned
    on every claim; an oracle that never assigns queries exhausts the 3
    attempts and fails the chunk. -/
theorem c8_query_validation_witness :
    (∀ c ∈ [(⟨"exercise improves sleep".toList, none,
        some "(sleep) AND (exercise)".toList⟩ : ClaimDraft)],
      ∃ q, ClaimDraft.search_query c = some q ∧
        _validate_search_query q = none) ∧
    (∃ e, extractChunkQueries (fun _ => [])
        [(⟨"exercise improves sleep".toList, none, none⟩ : ClaimDraft)] =
      Except.error e) :=
  ⟨c8_query_validation.2.1
      (fun _ => [⟨1, some "(sleep) AND (exercise)".toList⟩])
      [⟨"exercise improves sleep".toList, none, none⟩]
      [⟨"exercise improves sleep".toList, none,
        some "(sleep) AND (exercise)".toList⟩]
      (by rfl),
   c8_query_validation.2.2 (fun _ => [])
      [⟨"exercise improves sleep".toList, none, none⟩]
      (by decide)⟩

/-! ## LLM invocation retry loop (`llm_client.py` `_openai_json`) -/

/-- The possible outcomes of one attempt of `_openai_json` (lines 199-317):
    an HTTP status error from `raise_for_status`, a read timeout, any other
    exception raised while performing the request, empty response content,
    a JSON-decode failure on the content, or success. -/
inductive AttemptOutcome where
  | httpStatus (code : Nat)
  | readTimeout
  | otherRequestError
  | emptyContent
  | jsonParseFailure
  | success
deriving Repr, DecidableEq

/-- Embeds `_should_retry_status` (llm_client.py lines 378-379). -/
def _should_retry_status (status_code : Nat) : Bool :=
  status_code == 429 || status_code == 500 || status_code == 502 ||
    status_code == 503 || status_code == 504

/-- The per-outcome retry decision of `_openai_json`, mirroring its
    except/if structure: HTTP status errors retry only when
    `_should_retry_status` accepts the code (line 219); read timeouts
    (line 234), any other exception from the request (line 248), empty
    content (line 271) and JSON-decode failures (line 292) all retry while
    attempts remain; a successful attempt returns. -/
def attemptRetries (o : AttemptOutcome) : Bool :=
  match o with
  | .httpStatus code => _should_retry_status code
  | .readTimeout => true
  | .otherRequestError => true
  | .emptyContent => true
  | .jsonParseFailure => true
  | .success => false

/-- Embeds `_sleep_backoff` (llm_client.py lines 374-375): the delay slept
    before the next attempt. -/
def backoffSeconds (base : ℚ) (attempt : Nat) : ℚ := base * 2 ^ attempt

/-- The body of `for attempt in range(self.max_retries + 1)` with
    `remaining` attempts after the current one: return on success, continue
    on a retryable failure while attempts remain, otherwise re-raise
    (returning the pair of last attempt index and its outcome). -/
def runAttemptsGo (oracle : Nat → AttemptOutcome) (attempt : Nat) :
    Nat → Nat × AttemptOutcome
  | 0 => (attempt, oracle attempt)
  | remaining + 1 =>
    if oracle attempt = AttemptOutcome.success then (attempt, oracle attempt)
    else if attemptRetries (oracle attempt) then
      runAttemptsGo oracle (attempt + 1) remaining
    else (attempt, oracle attempt)

/-- The whole retry loop of `_openai_json` under an oracle giving each
    attempt's outcome. -/
def runAttempts (maxRetries : Nat) (oracle : Nat → AttemptOutcome) :
    Nat × AttemptOutcome :=
  runAttemptsGo oracle 0 maxRetries

/-- Modelled from the claim's words: the outcomes designated as locally
    retryable — HTTP 429/500/502/503/504, read timeout, empty content,
    JSON-parse failure; "every other error propagates immediately". -/
def claimedRetryable (o : AttemptOutcome) : Bool :=
  match o with
  | .httpStatus code => _should_retry_status code
  | .readTimeout => true
  | .otherRequestError => false
  | .emptyContent => true
  | .jsonParseFailure => true
  | .success => false

/-! ## C3: which failures are locally retried -/

/-- C3 counterexample: an exception from the request phase that is neither
    an HTTP status error, a read timeout, empty content nor a JSON-parse
    failure (e.g. a connect error) IS locally retried by the code — the
    generic `except Exception` branch retries it, with `max_retries = 2` the
    loop runs all 3 attempts — while the claim says every such error
    propagates immediately. -/
theorem c3_counterexample :
    attemptRetries AttemptOutcome.otherRequestError = true ∧
    claimedRetryable AttemptOutcome.otherRequestError = false ∧
    runAttempts 2 (fun _ => AttemptOutcome.otherRequestError) =
      (2, AttemptOutcome.otherRequestError) :=
  ⟨rfl, rfl, rfl⟩

/-- Bounds and retry-soundness of the attempt loop. -/
theorem runAttemptsGo_spec (oracle : Nat → AttemptOutcome) (remaining attempt : Nat) :
    attempt ≤ (runAttemptsGo oracle attempt remaining).1 ∧
    (runAttemptsGo oracle attempt remaining).1 ≤ attempt + remaining ∧
    (∀ j, attempt ≤ j → j < (runAttemptsGo oracle attempt remaining).1 →
      attemptRetries (oracle j) = true) := by
  induction remaining generalizing attempt with
  | zero =>
    refine ⟨le_refl _, by simp [runAttemptsGo], ?_⟩
    intro j hj1 hj2
    simp only [runAttemptsGo] at hj2
    omega
  | succ rem ih =>
    simp only [runAttemptsGo]
    by_cases hsucc : oracle attempt = AttemptOutcome.success
    · rw [if_pos hsucc]
      exact ⟨le_refl _, by omega, fun j hj1 hj2 => by omega⟩
    · rw [if_neg hsucc]
      by_cases hr : attemptRetries (oracle attempt) = true
      · rw [if_pos hr]
        obtain ⟨ih1, ih2, ih3⟩ := ih (attempt + 1)
        refine ⟨by omega, by omega, ?_⟩
        intro j hj1 hj2
        rcases Nat.eq_or_lt_of_le hj1 with rfl | hj1'
        · exact hr
        · exact ih3 j (by omega) hj2
      · rw [if_neg hr]
        exact ⟨le_refl _, by omega, fun j hj1 hj2 => by omega⟩

/-- C3 (amended): (i) an attempt's failure is locally retried exactly when
    it is not a success and is not an HTTP status error with a code outside
    {429, 500, 502, 503, 504} — i.e. besides the claim's list, any other
    exception raised during the request is also retried; (ii) the loop uses
    at most `max_retries` extra attempts, and every attempt that was
    followed by another had a code-retryable outcome; (iii) a first-attempt
    failure that is not code-retryable (e.g. HTTP 401) propagates
    immediately, after a single attempt; (iv) the backoff between attempts
    is exponential (doubles each retry). -/
theorem c3_retry_policy :
    (∀ o : AttemptOutcome, attemptRetries o = true ↔
      (o ≠ AttemptOutcome.success ∧
        ∀ code, o = AttemptOutcome.httpStatus code →
          _should_retry_status code = true)) ∧
    (∀ (maxRetries : Nat) (oracle : Nat → AttemptOutcome),
      (runAttempts maxRetries oracle).1 ≤ maxRetries ∧
      (∀ j, j < (runAttempts maxRetries oracle).1 →
        attemptRetries (oracle j) = true)) ∧
    (∀ (maxRetries : Nat) (oracle : Nat → AttemptOutcome),
      attemptRetries (oracle 0) = false →
      runAttempts maxRetries oracle = (0, oracle 0)) ∧
    (∀ (base : ℚ) (attempt : Nat),
      backoffSeconds base (attempt + 1) = 2 * backoffSeconds base attempt) := by
  refine ⟨?_, ?_, ?_, ?_⟩
  · intro o
    cases o <;> simp [attemptRetries]
  · intro maxRetries oracle
    obtain ⟨h1, h2, h3⟩ := runAttemptsGo_spec oracle maxRetries 0
    exact ⟨by simpa [runAttempts] using h2,
      fun j hj => h3 j (Nat.zero_le j) hj⟩
  · intro maxRetries oracle h
    cases maxRetries with
    | zero => rfl
    | succ m =>
      unfold runAttempts runAttemptsGo
      by_cases hsucc : oracle 0 = AttemptOutcome.success
      · rw [if_pos hsucc]
      · rw [if_neg hsucc, if_neg (by rw [h]; exact Bool.false_ne_true)]
  · intro base attempt
    unfold backoffSeconds
    rw [pow_succ]
    ring

/-- C3 witness: an HTTP 401 (auth error) on the first attempt is not
    retried — the loop ends after one attempt with the 401 outcome. -/
theorem c3_retry_policy_witness :
    runAttempts 2 (fun _ => AttemptOutcome.httpStatus 401) =
      (0, AttemptOutcome.httpStatus 401) :=
  c3_retry_policy.2.2.1 2 (fun _ => AttemptOutcome.httpStatus 401) (by decide)

/-! ## Rate limiters (`research_service/pubmed_client.py`) -/

/-- Embeds one serialized `acquire` of the in-memory `_RateLimiter`
    (lines 28-34): with the lock held and current clock `now`, the caller
    proceeds at `max now next_time` (idealizing `asyncio.sleep` as waking
    exactly at the target) and the shared `_next_time` becomes that grant
    plus `_min_interval`; `1.0 / max_rps` is modelled exactly over `ℚ`. -/
def memAcquire (interval : ℚ) (next_time : ℚ) (now : ℚ) : ℚ × ℚ :=
  let grant := max now next_time
  (grant, grant + interval)

/-- Grant instants of a sequence of in-memory acquires, in the FIFO order
    the lock admits the callers, with their observed clock values. -/
def memGrants (interval : ℚ) (next_time : ℚ) : List ℚ → List ℚ
  | [] => []
  | now :: rest =>
    (memAcquire interval next_time now).1 ::
      memGrants interval (memAcquire interval next_time now).2 rest

/-- Embeds the Redis limiter's interval: `max(1, int(1000 / max_rps))`
    milliseconds (pubmed_client.py line 63). -/
def interval_ms (max_rps : Nat) : Nat := max 1 (1000 / max_rps)

/-- Embeds the Lua `_RESERVE_SLOT_SCRIPT` (lines 38-55) as one atomic step
    on the stored next-allowed value (`none` models an absent key; TTL
    expiry is not modelled): the reservation is granted at the stored value
    if it is in the future, else at `now`, and the store receives the grant
    plus the interval. -/
def redisReserve (intervalMs : Nat) (stored : Option Nat) (now_ms : Nat) :
    Nat × Nat :=
  let next_allowed :=
    match stored with
    | some s => if s > now_ms then s else now_ms
    | none => now_ms
  (next_allowed, next_allowed + intervalMs)

/-- Grant instants (the `allowed_at_ms` each caller sleeps until) for a
    sequence of reservations in the order they execute at the store. -/
def redisGrants (intervalMs : Nat) (stored : Option Nat) : List Nat → List Nat
  | [] => []
  | now :: rest =>
    (redisReserve intervalMs stored now).1 ::
      redisGrants intervalMs (some (redisReserve intervalMs stored now).2) rest

/-- Every Redis grant is at least the stored next-allowed value. -/
theorem redisGrants_ge (I s : Nat) (arrivals : List Nat) :
    ∀ g ∈ redisGrants I (some s) arrivals, s ≤ g := by
  induction arrivals generalizing s with
  | nil => simp [redisGrants]
  | cons now rest ih =>
    intro g hg
    simp only [redisGrants, List.mem_cons] at hg
    rcases hg with rfl | hg'
    · simp only [redisReserve]
      split_ifs <;> omega
    · have h1 := ih _ g hg'
      have h2 : s ≤ (redisReserve I (some s) now).2 := by
        simp only [redisReserve]
        split_ifs <;> omega
      omega

/-- Consecutive Redis grants are at least one interval apart. -/
theorem redisGrants_chain (I : Nat) (stored : Option Nat) (arrivals : List Nat) :
    List.Chain' (fun a b => a + I ≤ b) (redisGrants I stored arrivals) := by
  induction arrivals generalizing stored with
  | nil => simp [redisGrants]
  | cons now rest ih =>
    simp only [redisGrants]
    rw [List.chain'_cons']
    refine ⟨?_, ih _⟩
    intro b hb
    have hmem := List.mem_of_mem_head? hb
    have := redisGrants_ge I (redisReserve I stored now).2 rest b hmem
    have h2 : (redisReserve I stored now).2 = (redisReserve I stored now).1 + I := rfl
    omega

/-- Every in-memory grant is at least the shared next-allowed time. -/
theorem memGrants_ge (I : ℚ) (hI : 0 ≤ I) (next : ℚ) (arrivals : List ℚ) :
    ∀ g ∈ memGrants I next arrivals, next ≤ g := by
  induction arrivals generalizing next with
  | nil => simp [memGrants]
  | cons now rest ih =>
    intro g hg
    simp only [memGrants, List.mem_cons] at hg
    rcases hg with rfl | hg'
    · exact le_max_right _ _
    · have h1 := ih _ g hg'
      have h2 : next ≤ (memAcquire I next now).2 := by
        simp only [memAcquire]
        have := le_max_right now next
        linarith
      linarith

/-- Consecutive in-memory grants are at least one interval apart. -/
theorem memGrants_chain (I : ℚ) (hI : 0 ≤ I) (next : ℚ) (arrivals : List ℚ) :
    List.Chain' (fun a b => a + I ≤ b) (memGrants I next arrivals) := by
  induction arrivals generalizing next with
  | nil => simp [memGrants]
  | cons now rest ih =>
    simp only [memGrants]
    rw [List.chain'_cons']
    refine ⟨?_, ih _⟩
    intro b hb
    have hmem := List.mem_of_mem_head? hb
    have h1 := memGrants_ge I hI (memAcquire I next now).2 rest b hmem
    have h2 : (memAcquire I next now).2 = (memAcquire I next now).1 + I := rfl
    linarith [h1, h2.ge.trans_eq rfl]

/-! ## C2: distributed rate limiter spacing, atomicity, FIFO -/

/-- C2 counterexample: with `max_rps = 3` the Redis limiter's interval is
    `int(1000/3) = 333` ms, so two reservations arriving together are
    granted instants 0 ms and 333 ms — only 0.333 s apart, which is less
    than `1/max_rps = 1/3` s. -/
theorem c2_counterexample :
    interval_ms 3 = 333 ∧
    redisGrants (interval_ms 3) none [0, 0] = [0, 333] ∧
    (333 : ℚ) / 1000 < 1 / 3 :=
  ⟨rfl, rfl, by norm_num⟩

/-- C2 (amended): for every `max_rps > 0`, (i) the Redis reservation is one
    atomic step mapping the stored value to `max(now, stored) + interval`;
    (ii) any two Redis grants (in store order) are at least
    `interval_ms = max(1, ⌊1000/max_rps⌋)` milliseconds apart — which equals
    `1/max_rps` seconds only when `max_rps` divides 1000; (iii) Redis grants
    are strictly increasing in the order reservations reach the store
    (FIFO); (iv) any two in-memory grants (in lock order) are at least
    `1/max_rps` seconds apart, in the exact-rational model of
    `1.0/max_rps`. -/
theorem c2_rate_limiter (max_rps : Nat) (h : 0 < max_rps) :
    (∀ (stored : Option Nat) (now : Nat),
      redisReserve (interval_ms max_rps) stored now =
        (max now (stored.getD now),
          max now (stored.getD now) + interval_ms max_rps)) ∧
    (∀ (stored : Option Nat) (arrivals : List Nat),
      List.Pairwise (fun a b => a + interval_ms max_rps ≤ b)
        (redisGrants (interval_ms max_rps) stored arrivals)) ∧
    (∀ (stored : Option Nat) (arrivals : List Nat),
      List.Pairwise (fun a b => a < b)
        (redisGrants (interval_ms max_rps) stored arrivals)) ∧
    (∀ (next : ℚ) (arrivals : List ℚ),
      List.Pairwise (fun a b => a + 1 / (max_rps : ℚ) ≤ b)
        (memGrants (1 / (max_rps : ℚ)) next arrivals)) := by
  have hI1 : 1 ≤ interval_ms max_rps := le_max_left _ _
  refine ⟨?_, ?_, ?_, ?_⟩
  · intro stored now
    cases stored with
    | none => simp [redisReserve, Option.getD]
    | some s =>
      simp only [redisReserve, Option.getD]
      split_ifs with hs
      · rw [max_eq_right (by omega)]
      · rw [max_eq_left (by omega)]
  · intro stored arrivals
    haveI : IsTrans Nat (fun a b => a + interval_ms max_rps ≤ b) :=
      ⟨fun a b c hab hbc => by omega⟩
    exact List.chain'_iff_pairwise.mp (redisGrants_chain _ stored arrivals)
  · intro stored arrivals
    haveI : IsTrans Nat (fun a b : Nat => a < b) := ⟨fun a b c => Nat.lt_trans⟩
    refine List.chain'_iff_pairwise.mp ?_
    refine (redisGrants_chain (interval_ms max_rps) stored arrivals).imp ?_
    intro a b hab
    omega
  · intro next arrivals
    have hI : (0 : ℚ) ≤ 1 / (max_rps : ℚ) := by positivity
    haveI : IsTrans ℚ (fun a b => a + 1 / (max_rps : ℚ) ≤ b) :=
      ⟨fun a b c hab hbc => by linarith⟩
    exact List.chain'_iff_pairwise.mp (memGrants_chain _ hI next arrivals)

/-- C2 witness: three reservations at `max_rps = 3` are granted at 0, 333
    and 666 ms, pairwise at least one interval apart. -/
theorem c2_rate_limiter_witness :
    redisGrants (interval_ms 3) none [0, 0, 100] = [0, 333, 666] ∧
    List.Pairwise (fun a b => a + interval_ms 3 ≤ b)
      (redisGrants (interval_ms 3) none [0, 0, 100]) :=
  ⟨rfl, (c2_rate_limiter 3 (by decide)).2.1 none [0, 0, 100]⟩
